import Mathlib

/-!
Verification development for the TaintedBySatoshi taint propagation engine.

The definitions below are a shallow embedding of the backend source:
`backgroundSyncService.js` (scanner, seed builder, batch management),
`bitcoinRPC.js` (`formatTransaction`), `dbService.js` / LevelDB stores
(modelled as association lists with last-write-wins semantics), and
`bitcoinService.js` (`checkAddressConnection`).

JavaScript numeric quirks that the engine actually exercises are modelled
explicitly: `minDegree` starts at `Infinity`, `Infinity + 1 = Infinity`,
comparing a non-numeric object with `<` or `===` against a number yields
`false` (NaN semantics), JSON serialization maps `Infinity` to `null`, and
`null <= n` coerces `null` to `0`.  Wall-clock timestamps and the
BTC-to-satoshi float conversion are abstracted (amounts are integer
satoshis throughout); the batch-flush timer is an oracle parameter.
-/

namespace TaintedBySatoshi

abbrev Addr := String
abbrev TxId := String
abbrev Outpoint := TxId × Nat

/-- A JavaScript number as used for degrees: a finite integer or `Infinity`. -/
inductive JNum where
  | int (k : ℤ)
  | inf
deriving DecidableEq, Repr

/-- JS `<` on degree numbers. -/
def jlt : JNum → JNum → Bool
  | .int a, .int b => a < b
  | .int _, .inf => true
  | .inf, _ => false

/-- JS `===` on degree numbers (`Infinity === Infinity` is true). -/
def jeqNum : JNum → JNum → Bool
  | .int a, .int b => a = b
  | .inf, .inf => true
  | _, _ => false

/-- JS `<=` on degree numbers. -/
def jleNum : JNum → JNum → Bool
  | .int a, .int b => a ≤ b
  | _, .inf => true
  | .inf, .int _ => false

/-- `x + 1` in JS: `Infinity + 1 = Infinity`. -/
def jadd1 : JNum → JNum
  | .int a => .int (a + 1)
  | .inf => .inf

/-- A JSON-serialized numeric value: `JSON.stringify(Infinity)` is `null`. -/
inductive JVal where
  | jint (k : ℤ)
  | jnull
deriving DecidableEq, Repr

/-- JSON serialization of a JS number. -/
def toJVal : JNum → JVal
  | .int k => .jint k
  | .inf => .jnull

/-- JS `existing.degree <= currentDegree` where the stored degree may be
JSON `null` (which coerces to `0`). -/
def jleJ : JVal → JNum → Bool
  | .jint a, .int b => a ≤ b
  | .jint _, .inf => true
  | .jnull, .int b => (0 : ℤ) ≤ b
  | .jnull, .inf => true

/-- Association-list lookup keyed by decidable equality (first match wins;
stores prepend on put, so the first match is the latest write). -/
def alookup {κ β : Type} [DecidableEq κ] (k : κ) : List (κ × β) → Option β
  | [] => none
  | (k', v) :: t => if k' = k then some v else alookup k t

/-- Output scripts, abstracted by their standard type. -/
inductive Script where
  | p2pkh (a : Addr)
  | p2sh (a : Addr)
  | p2wpkh (a : Addr)
  | p2wsh (a : Addr)
  | p2tr (a : Addr)
  | nonstandard
deriving DecidableEq, Repr

/-- Modelled from the spec: `bitcoinRPC.getAddressFromScript` is called
throughout the scanner and seed builder but its definition is absent from
the sources (only call sites are present).  Per the spec it "decodes the
standard output types used on mainnet (P2PKH, P2SH, P2WPKH, P2WSH, P2TR);
returns none for non-standard outputs". -/
def getAddressFromScript : Script → Option Addr
  | .p2pkh a => some a
  | .p2sh a => some a
  | .p2wpkh a => some a
  | .p2wsh a => some a
  | .p2tr a => some a
  | .nonstandard => none

/-- The spent output attached to a verbose-with-prevouts input. -/
structure Prevout where
  scriptPubKey : Script
  value : ℤ
deriving DecidableEq, Repr

/-- A transaction input.  `coinbase` inputs carry no outpoint. -/
structure Vin where
  coinbase : Bool
  txid : TxId
  vout : Nat
  prevout : Option Prevout
deriving DecidableEq, Repr

/-- A transaction output. -/
structure Vout where
  scriptPubKey : Script
  value : ℤ
deriving DecidableEq, Repr

structure Tx where
  txid : TxId
  time : ℤ
  vin : List Vin
  vout : List Vout
deriving DecidableEq, Repr

structure Block where
  tx : List Tx
deriving DecidableEq, Repr

/-- One entry of `formattedTx.inputs` (`prev_out` of `formatTransaction`). -/
structure FInput where
  addr : Option Addr
  value : ℤ
deriving DecidableEq, Repr

/-- One entry of `formattedTx.out` (non-standard outputs are filtered out). -/
structure FOut where
  addr : Addr
  value : ℤ
deriving DecidableEq, Repr

/-- The compact transaction shape produced by `bitcoinRPC.formatTransaction`. -/
structure FormattedTx where
  hash : TxId
  time : ℤ
  inputs : List FInput
  out : List FOut
deriving DecidableEq, Repr

/-- `bitcoinRPC.formatTransaction`: inputs keep the decoded prevout address
and value; outputs are filtered down to those with a decodable address. -/
def formatTransaction (t : Tx) : FormattedTx where
  hash := t.txid
  time := t.time
  inputs := t.vin.map fun v =>
    ⟨v.prevout.bind fun p => getAddressFromScript p.scriptPubKey,
     (v.prevout.map Prevout.value).getD 0⟩
  out := t.vout.filterMap fun o =>
    (getAddressFromScript o.scriptPubKey).map fun a => ⟨a, o.value⟩

/-- A value stored under a `tainted_out:` key in the scan store.  The
scanner writes bare integer degrees; the seed builder writes a record
object; a serialized `Infinity` reads back as JSON `null`. -/
inductive TOVal where
  | iv (k : ℤ)
  | nullv
  | obj (address : Option Addr) (blockHeight : Nat)
deriving DecidableEq, Repr

/-- What a `put` of a JS degree number leaves in the JSON-encoded store. -/
def toTOVal : JNum → TOVal
  | .int k => .iv k
  | .inf => .nullv

/-- The `satoshi_coinbase_initialized` flag value (timestamp omitted). -/
structure InitFlag where
  count : Nat
deriving DecidableEq, Repr

/-- The scan store (`<base>/scan_progress/` LevelDB). -/
structure ScanDB where
  taintedOut : List (Outpoint × TOVal)
  scanProgress : Option ℤ
  coinbaseFlag : Option InitFlag
deriving DecidableEq, Repr

/-- One hop of a witness path (`{from, to, txHash, amount}`). -/
structure Hop where
  fromAddr : Addr
  toAddr : Addr
  txHash : TxId
  amount : ℤ
deriving DecidableEq, Repr

/-- A `tainted:<address>` record (`lastUpdated` timestamp omitted). -/
structure TaintRecord where
  txHash : Option TxId
  originalSatoshiAddress : Addr
  amount : ℤ
  degree : JVal
  path : List Hop
deriving DecidableEq, Repr

/-- A cached `tx:<txid>` record. -/
structure TxRecord where
  hash : TxId
  time : ℤ
  inputs : List FInput
  outputs : List FOut
  degree : JVal
deriving DecidableEq, Repr

/-- The main store (`tainted:` and `tx:` keyspaces). -/
structure MainDB where
  tainted : List (Addr × TaintRecord)
  txs : List (TxId × TxRecord)
deriving DecidableEq, Repr

/-- One staged operation of the scanner's main-store write batch. -/
inductive MainOp where
  | putTainted (a : Addr) (r : TaintRecord)
  | putTx (h : TxId) (r : TxRecord)
deriving DecidableEq, Repr

def applyMainOp (db : MainDB) : MainOp → MainDB
  | .putTainted a r => { db with tainted := (a, r) :: db.tainted }
  | .putTx h r => { db with txs := (h, r) :: db.txs }

def applyMainOps (db : MainDB) (ops : List MainOp) : MainDB :=
  ops.foldl applyMainOp db

/-- The in-memory `this.mainBatch` together with `this.batchIsValid`. -/
structure BatchState where
  ops : List MainOp
  batchIsValid : Bool
deriving DecidableEq, Repr

/-- `safeBatchPut`: stage an operation only while the batch is valid. -/
def safeBatchPut (b : BatchState) (op : MainOp) : BatchState :=
  if b.batchIsValid then { b with ops := b.ops ++ [op] } else b

/-- The `parentTaintingCache`, a JS `Map` in insertion order. -/
abbrev Cache := List (Addr × TaintRecord)

/-- JS `Map.set`: update in place when present, else append. -/
def mapSet (c : Cache) (a : Addr) (r : TaintRecord) : Cache :=
  if (alookup a c).isSome then
    c.map fun p => if p.1 = a then (a, r) else p
  else c ++ [(a, r)]

/-- Evict the oldest (first-inserted) cache entry. -/
def mapEvictOldest (c : Cache) : Cache := c.tail

/-- Batch plus cache: the mutable context threaded through the
per-address callbacks. -/
structure AddrCtx where
  batch : BatchState
  cache : Cache
deriving DecidableEq, Repr

/-- The amount the transaction pays to `address`
(`transaction.out.find(o => o.addr === address)?.value || 0`). -/
def outAmountFor (ftx : FormattedTx) (address : Addr) : ℤ :=
  ((ftx.out.find? fun o => o.addr = address).map FOut.value).getD 0

/-- The body of `processAddressInBatch` past the shorter-path check:
parent lookup (cache first, then store), path extension, opportunistic
`tx:` caching and the `tainted:` upsert, all staged via `safeBatchPut`. -/
def processAddressCore (db : MainDB) (ctx : AddrCtx)
    (address : Addr) (currentDegree : JNum) (transaction : FormattedTx)
    (sourceAddress : Option Addr) : AddrCtx :=
  let parentAndCache : Option TaintRecord × Cache :=
    match sourceAddress with
    | none => (none, ctx.cache)
    | some s =>
      match alookup s ctx.cache with
      | some p => (some p, ctx.cache)
      | none =>
        match alookup s db.tainted with
        | some p =>
          let c := if ctx.cache.length > 10000 then mapEvictOldest ctx.cache else ctx.cache
          (some p, mapSet c s p)
        | none => (none, ctx.cache)
  let parentTinting := parentAndCache.1
  let cache1 := parentAndCache.2
  let origAndPath : Addr × List Hop :=
    match parentTinting, sourceAddress with
    | some p, some s =>
      (p.originalSatoshiAddress,
       p.path ++ [⟨s, address, transaction.hash, outAmountFor transaction address⟩])
    | _, _ => (address, [])
  let batch1 :=
    if (alookup transaction.hash db.txs).isSome then ctx.batch
    else safeBatchPut ctx.batch (.putTx transaction.hash
      ⟨transaction.hash, transaction.time, transaction.inputs, transaction.out,
       toJVal currentDegree⟩)
  let taintData : TaintRecord :=
    { txHash := some transaction.hash
      originalSatoshiAddress := origAndPath.1
      amount := outAmountFor transaction address
      degree := toJVal currentDegree
      path := origAndPath.2 }
  let batch2 := safeBatchPut batch1 (.putTainted address taintData)
  let cache2 :=
    if cache1.length ≤ 10000 then mapSet cache1 address taintData
    else mapSet (mapEvictOldest cache1) address taintData
  ⟨batch2, cache2⟩

/-- `BackgroundSyncService.processAddressInBatch`.  Reads go against the
committed main store `db`; writes are staged into the batch.  (The
`SATOSHI_ADDRESSES.includes(address)` branch of the source only re-assigns
`originalSatoshiAddress = address`, which is its initial value, so the
function does not depend on the seed list.) -/
def processAddressInBatch (db : MainDB) (ctx : AddrCtx)
    (address : Addr) (currentDegree : JNum) (transaction : FormattedTx)
    (sourceAddress : Option Addr) : AddrCtx :=
  match alookup address db.tainted with
  | some existing =>
    if jleJ existing.degree currentDegree then ctx
    else processAddressCore db ctx address currentDegree transaction sourceAddress
  | none => processAddressCore db ctx address currentDegree transaction sourceAddress

/-- One step of the input scan of `processBlock` (step 1): consult the
in-block map first, then `tainted_out:` in the scan store.  The accumulator
is `(isTaintSpreading, minDegree)`; `minDegree` starts at `Infinity`.
A stored seed-builder object passes the non-null check but its `<`
comparison against a number is `false` (NaN); a stored JSON `null` fails
the non-null check. -/
def noteInput (scanDb : ScanDB) (blockMap : List (Outpoint × JNum))
    (acc : Bool × JNum) (v : Vin) : Bool × JNum :=
  if v.coinbase then acc
  else
    match alookup ((v.txid, v.vout) : Outpoint) blockMap with
    | some d => (true, if jlt d acc.2 then d else acc.2)
    | none =>
      match alookup ((v.txid, v.vout) : Outpoint) scanDb.taintedOut with
      | some (.iv k) => (true, if jlt (.int k) acc.2 then .int k else acc.2)
      | some (.obj _ _) => (true, acc.2)
      | some .nullv => acc
      | none => acc

def inputScan (scanDb : ScanDB) (blockMap : List (Outpoint × JNum))
    (vins : List Vin) : Bool × JNum :=
  vins.foldl (noteInput scanDb blockMap) (false, .inf)

/-- The source-address selection loop of `processBlock`: the first tainted
input whose degree strictly `===`-equals `minDegree` and whose prevout (or,
lacking a prevout, some formatted input) decodes to an address. -/
def findSourceAddress (scanDb : ScanDB) (blockMap : List (Outpoint × JNum))
    (ftx : FormattedTx) (minDegree : JNum) : List Vin → Option Addr
  | [] => none
  | v :: rest =>
    if v.coinbase then findSourceAddress scanDb blockMap ftx minDegree rest
    else
      let o : Outpoint := (v.txid, v.vout)
      let degMatch : Bool :=
        match alookup o blockMap with
        | some d => jeqNum d minDegree
        | none =>
          match alookup o scanDb.taintedOut with
          | some (.iv k) => jeqNum (.int k) minDegree
          | _ => false
      if degMatch then
        let cand : Option Addr :=
          match v.prevout with
          | some p => getAddressFromScript p.scriptPubKey
          | none => (ftx.inputs.find? fun i => i.addr.isSome).bind FInput.addr
        match cand with
        | some a => some a
        | none => findSourceAddress scanDb blockMap ftx minDegree rest
      else findSourceAddress scanDb blockMap ftx minDegree rest

/-- A deferred `processAddressInBatch` invocation pushed onto
`callbackPromises`. -/
structure Callback where
  address : Addr
  currentDegree : JNum
  tx : FormattedTx
  sourceAddress : Option Addr
deriving DecidableEq, Repr

/-- Block-local state: the in-block tainted-outpoint map, the staged
`tainted_out` batch, and the collected address callbacks. -/
structure BlockAcc where
  blockMap : List (Outpoint × JNum)
  toBatch : List (Outpoint × JNum)
  callbacks : List Callback
deriving DecidableEq, Repr

/-- The already-tainted check for one output: the in-block map, then the
non-null check on the stored `tainted_out:` value. -/
def alreadyTainted (scanDb : ScanDB) (blockMap : List (Outpoint × JNum))
    (o : Outpoint) : Bool :=
  (alookup o blockMap).isSome ||
    (match alookup o scanDb.taintedOut with
     | some (.iv _) => true
     | some (.obj _ _) => true
     | some .nullv => false
     | none => false)

/-- Stage one output of a tainting transaction (the "Process ALL outputs"
loop body). -/
def stageOutput (scanDb : ScanDB) (txid : TxId) (currentDegree : JNum)
    (ftx : FormattedTx) (src : Option Addr) (acc : BlockAcc)
    (iv : Nat × Vout) : BlockAcc :=
  let o : Outpoint := (txid, iv.1)
  if alreadyTainted scanDb acc.blockMap o then acc
  else
    let address := getAddressFromScript iv.2.scriptPubKey
    let acc' : BlockAcc :=
      { acc with
        toBatch := acc.toBatch ++ [(o, currentDegree)]
        blockMap := (o, currentDegree) :: acc.blockMap }
    match address with
    | some a => { acc' with callbacks := acc'.callbacks ++ [⟨a, currentDegree, ftx, src⟩] }
    | none => acc'

/-- Process one transaction of a block (`processBlock` loop body). -/
def processTx (seeds : List Addr) (scanDb : ScanDB) (acc : BlockAcc)
    (t : Tx) : BlockAcc :=
  let scanned := inputScan scanDb acc.blockMap t.vin
  let outputs := t.vout.enum.filterMap fun p =>
    (getAddressFromScript p.2.scriptPubKey).map fun a => (p.1, a, p.2.value)
  let goesToSatoshi := outputs.any fun o => seeds.contains o.2.1
  let isTaintSpreading := scanned.1 || goesToSatoshi
  let minDegree := if goesToSatoshi then JNum.int (-1) else scanned.2
  if isTaintSpreading then
    let currentDegree := jadd1 minDegree
    let ftx := formatTransaction t
    let src := findSourceAddress scanDb acc.blockMap ftx minDegree t.vin
    t.vout.enum.foldl (stageOutput scanDb t.txid currentDegree ftx src) acc
  else acc

/-- The per-block fold over all transactions, threading the in-block map,
the staged `tainted_out` batch and the callback list.  The scan store is
read-only during this fold. -/
def blockAcc (seeds : List Addr) (scanDb : ScanDB) (b : Block) : BlockAcc :=
  b.tx.foldl (processTx seeds scanDb) ⟨[], [], []⟩

/-- Commit the staged `tainted_out` batch to the scan store (later puts
shadow earlier ones). -/
def writeTOBatch (scanDb : ScanDB) (batch : List (Outpoint × JNum)) : ScanDB :=
  { scanDb with
    taintedOut := batch.foldl (fun l p => (p.1, toTOVal p.2) :: l) scanDb.taintedOut }

/-- `BackgroundSyncService.processBlock`: run the transaction fold, write
the `tainted_out` batch (if non-empty), then run the address callbacks in
order against the committed main store. -/
def processBlock (seeds : List Addr) (b : Block) (db : MainDB)
    (scanDb : ScanDB) (ctx : AddrCtx) : ScanDB × AddrCtx :=
  let acc := blockAcc seeds scanDb b
  let scanDb' := if acc.toBatch.isEmpty then scanDb else writeTOBatch scanDb acc.toBatch
  let ctx' := acc.callbacks.foldl
    (fun c cb => processAddressInBatch db c cb.address cb.currentDegree cb.tx cb.sourceAddress)
    ctx
  (scanDb', ctx')

/-- Scanner configuration relevant to batching (`this.config.batchSize`). -/
structure Config where
  batchSize : Nat
deriving DecidableEq, Repr

/-- The mutable state threaded through `syncNewBlocks`. -/
structure SyncState where
  scanDb : ScanDB
  mainDb : MainDB
  batch : BatchState
  cache : Cache
deriving DecidableEq, Repr

/-- `resetBatch`: fresh empty batch, marked valid. -/
def resetBatch (st : SyncState) : SyncState :=
  { st with batch := ⟨[], true⟩ }

/-- `flushBatch`: commit the staged main-store operations when the batch is
non-empty and valid; a written batch is consumed and marked invalid. -/
def flushBatch (st : SyncState) : SyncState :=
  if st.batch.ops.length > 0 ∧ st.batch.batchIsValid then
    { st with mainDb := applyMainOps st.mainDb st.batch.ops, batch := ⟨[], false⟩ }
  else st

/-- The fate of one height in the per-block loop: the block was fetched and
processed, or fetching/processing failed (caught by the per-height
`catch`). -/
inductive Outcome where
  | ok (b : Block)
  | fail
deriving Repr

/-- One iteration of the `syncNewBlocks` height loop.  On success: process
the block (which writes the `tainted_out` batch), flush the main batch only
when it reached the size threshold or the flush timer fired, then publish
`scan_progress`.  On failure: log, and reset the batch if it became
invalid; the loop continues with the next block instead of retrying. -/
def syncBlockStep (seeds : List Addr) (cfg : Config) (fetch : ℤ → Outcome)
    (flushTimerDue : ℤ → Bool) (st : SyncState) (height : ℤ) : SyncState :=
  match fetch height with
  | .fail => if !st.batch.batchIsValid then resetBatch st else st
  | .ok b =>
    let pb := processBlock seeds b st.mainDb st.scanDb ⟨st.batch, st.cache⟩
    let st1 : SyncState := { st with scanDb := pb.1, batch := pb.2.batch, cache := pb.2.cache }
    let st2 :=
      if cfg.batchSize ≤ st1.batch.ops.length ∨ flushTimerDue height then
        resetBatch (flushBatch st1)
      else st1
    { st2 with scanDb := { st2.scanDb with scanProgress := some height } }

/-- `BackgroundSyncService.syncNewBlocks` over an explicit list of heights:
reset the batch, run the per-height loop, then do the final batch flush. -/
def syncNewBlocks (seeds : List Addr) (cfg : Config) (fetch : ℤ → Outcome)
    (flushTimerDue : ℤ → Bool) (st0 : SyncState) (heights : List ℤ) : SyncState :=
  flushBatch (heights.foldl (syncBlockStep seeds cfg fetch flushTimerDue) (resetBatch st0))

/-- The degree-0 record written for every seed address by
`ensureInitialized` (step 4). -/
def seedInitRecord (address : Addr) : TaintRecord :=
  { txHash := none
    originalSatoshiAddress := address
    amount := 0
    degree := .jint 0
    path := [] }

/-- The Satoshi-address materialization of `ensureInitialized`: probe
`tainted:<seeds[0]>`; when absent, write a degree-0 empty-path record for
every seed address in one batch. -/
def initSatoshiAddresses (seeds : List Addr) (db : MainDB) : MainDB :=
  match seeds.head? with
  | none => db
  | some a0 =>
    if (alookup a0 db.tainted).isSome then db
    else { db with tainted := seeds.foldl (fun l a => (a, seedInitRecord a) :: l) db.tainted }

/-- `initializeCoinbaseOutputs`: for each curated height, fetch the block's
coinbase transaction (`cbFetch`; `none` models a per-height RPC error,
logged and skipped) and stage a degree-0 record object for every coinbase
output; finally write the batch and set the one-shot flag. -/
def initCoinbaseOutputs (cbFetch : Nat → Option Tx) (heights : List Nat)
    (scanDb : ScanDB) : ScanDB :=
  let entries : List (Outpoint × TOVal) :=
    heights.foldl
      (fun l h =>
        match cbFetch h with
        | none => l
        | some cb =>
          l ++ cb.vout.enum.map fun p =>
            ((cb.txid, p.1), TOVal.obj (getAddressFromScript p.2.scriptPubKey) h))
      []
  { scanDb with
    taintedOut := entries.foldl (fun l e => e :: l) scanDb.taintedOut
    coinbaseFlag := some ⟨entries.length⟩ }

/-- The coinbase-initialization check of `ensureInitialized` (step 5): read
the `satoshi_coinbase_initialized` flag and return immediately when it is
present, else run `initializeCoinbaseOutputs`. -/
def ensureCoinbaseInit (cbFetch : Nat → Option Tx) (heights : List Nat)
    (scanDb : ScanDB) : ScanDB :=
  if scanDb.coinbaseFlag.isSome then scanDb
  else initCoinbaseOutputs cbFetch heights scanDb

/-- A transaction entry of the query response: the cached `tx:` record, or
the `{hash, amount}` fallback built from the path hop. -/
inductive TxInfo where
  | full (r : TxRecord)
  | brief (hash : TxId) (amount : ℤ)
deriving DecidableEq, Repr

/-- The JSON shape returned by `checkAddressConnection`. -/
structure CheckResult where
  isConnected : Bool
  isSatoshiAddress : Bool
  degree : JVal
  note : Option String
  connectionPath : List Hop
  transactions : List TxInfo
deriving DecidableEq, Repr

/-- The query service's curated Satoshi list (`bitcoinService.js`). -/
def SATOSHI_ADDRESSES_QUERY : List Addr :=
  ["1A1zP1eP5QGefi2DMPTfTL5SLmv7DivfNa",
   "12cbQLTFMXRnSzktFkuoG3eHoMeFtpTu3S",
   "12c6DSiU4Rq3P4ZxziKxzrL5LmMBrzjrJX",
   "1HLoD9E4SDFFPDiYfNYnkBLQ85Y51J3Zb1",
   "1FvzCLoTPGANNjWoUo6jUGuAG3wg1w4YjR",
   "15ubicBBWFnvoZLT7GiU2qxjRaKJPdkDMG",
   "1JfbZRwdDHKZmuiZgYArJZhcuuzuw2HuMu",
   "1GkQmKAmHtNfnD3LHhTkewJxKHVSta4m2a",
   "16LoW7y83wtawMg5XmT4M3Q7EdjjUmenjM",
   "1J6PYEzr4CUoGbnXrELyHszoTSz3wCsCaj"]

/-- `SATOSHI_NOTES` of `bitcoinService.js`. -/
def SATOSHI_NOTES (a : Addr) : Option String :=
  if a = "1A1zP1eP5QGefi2DMPTfTL5SLmv7DivfNa" then some "Genesis block address"
  else if a = "12cbQLTFMXRnSzktFkuoG3eHoMeFtpTu3S" then
    some "First user-to-user Bitcoin transaction (to Hal Finney)"
  else none

/-- `checkAddressConnection` (query service): seed short-circuit, then the
`tainted:` lookup with store-not-found mapped to the unconnected shape. -/
def checkAddressConnection (db : MainDB) (address : Addr) : CheckResult :=
  if SATOSHI_ADDRESSES_QUERY.contains address then
    { isConnected := true
      isSatoshiAddress := true
      degree := .jint 0
      note := some ((SATOSHI_NOTES address).getD "Known Satoshi address")
      connectionPath := []
      transactions := [] }
  else
    match alookup address db.tainted with
    | none =>
      { isConnected := false
        isSatoshiAddress := false
        degree := .jint 0
        note := none
        connectionPath := []
        transactions := [] }
    | some t =>
      { isConnected := true
        isSatoshiAddress := false
        degree := t.degree
        note := none
        connectionPath := t.path
        transactions := t.path.map fun p =>
          match alookup p.txHash db.txs with
          | some r => .full r
          | none => .brief p.txHash p.amount }

/-! ### Boolean invariants used by the theorems -/

/-- A JS degree number is non-negative (`Infinity` counts as such). -/
def jnnB : JNum → Bool
  | .int k => decide (0 ≤ k)
  | .inf => true

/-- Every integer degree stored under `tainted_out:` is non-negative. -/
def scanWFb (s : ScanDB) : Bool :=
  s.taintedOut.all fun p =>
    match p.2 with
    | .iv k => decide (0 ≤ k)
    | _ => true

/-- Every degree in an in-block map is non-negative. -/
def mapWFb (m : List (Outpoint × JNum)) : Bool :=
  m.all fun p => jnnB p.2

/-- The staged operation does not write the `tainted:` record of `A`. -/
def opAvoids (A : Addr) : MainOp → Bool
  | .putTainted a _ => !(a = A : Bool)
  | .putTx _ _ => true

/-- The staged operation is not a `tx:` put for hash `h`. -/
def isPutTxKey (h : TxId) : MainOp → Bool
  | .putTx h' _ => h' = h
  | .putTainted _ _ => false

/-! ### Generic lemmas about association lists and folds -/

theorem alookup_cons {κ β : Type} [DecidableEq κ] (k k' : κ) (v : β)
    (l : List (κ × β)) :
    alookup k ((k', v) :: l) = if k' = k then some v else alookup k l := rfl

theorem alookup_append {κ β : Type} [DecidableEq κ] (k : κ)
    (l₁ l₂ : List (κ × β)) :
    alookup k (l₁ ++ l₂) =
      match alookup k l₁ with
      | some v => some v
      | none => alookup k l₂ := by
  induction l₁ with
  | nil => rfl
  | cons h t ih =>
    obtain ⟨k', v⟩ := h
    by_cases hk : k' = k <;> simp [alookup, hk, ih]

theorem alookup_map_val {κ β γ : Type} [DecidableEq κ] (k : κ) (g : β → γ)
    (l : List (κ × β)) :
    alookup k (l.map fun p => (p.1, g p.2)) = (alookup k l).map g := by
  induction l with
  | nil => rfl
  | cons h t ih =>
    obtain ⟨k', v⟩ := h
    by_cases hk : k' = k <;> simp [alookup, hk, ih]

theorem foldl_prepend {α κ β : Type} (f : α → κ × β) (l : List α)
    (init : List (κ × β)) :
    l.foldl (fun acc p => f p :: acc) init = (l.map f).reverse ++ init := by
  induction l generalizing init with
  | nil => rfl
  | cons h t ih => simp [List.foldl_cons, ih, List.append_assoc]

theorem alookup_all {κ β : Type} [DecidableEq κ] (p : κ × β → Bool)
    (l : List (κ × β)) (k : κ) (v : β)
    (hall : l.all p = true) (hl : alookup k l = some v) : p (k, v) = true := by
  induction l with
  | nil => simp [alookup] at hl
  | cons h t ih =>
    obtain ⟨k', v'⟩ := h
    simp only [List.all_cons, Bool.and_eq_true] at hall
    by_cases hk : k' = k
    · subst hk
      simp [alookup] at hl
      subst hl
      exact hall.1
    · simp [alookup, hk] at hl
      exact ih hall.2 hl

theorem alookup_foldl_keyed_notmem {κ β : Type} [DecidableEq κ]
    (f : κ → β) (seeds : List κ) (init : List (κ × β)) (A : κ)
    (hA : A ∉ seeds) :
    alookup A (seeds.foldl (fun l a => (a, f a) :: l) init) = alookup A init := by
  induction seeds generalizing init with
  | nil => rfl
  | cons h t ih =>
    simp only [List.mem_cons, not_or] at hA
    rw [List.foldl_cons, ih _ hA.2, alookup_cons, if_neg fun hh => hA.1 hh.symm]

theorem alookup_foldl_keyed {κ β : Type} [DecidableEq κ]
    (f : κ → β) (seeds : List κ) (init : List (κ × β)) (A : κ)
    (hA : A ∈ seeds) :
    alookup A (seeds.foldl (fun l a => (a, f a) :: l) init) = some (f A) := by
  induction seeds generalizing init with
  | nil => simp at hA
  | cons h t ih =>
    rw [List.foldl_cons]
    by_cases ht : A ∈ t
    · exact ih _ ht
    · have hh : h = A := by
        rcases List.mem_cons.mp hA with h1 | h2
        · exact h1.symm
        · exact absurd h2 ht
      rw [alookup_foldl_keyed_notmem _ _ _ _ ht, alookup_cons, if_pos hh]
      subst hh
      rfl

/-! ### Order facts about JS degree comparisons -/

theorem jleNum_refl (a : JNum) : jleNum a a = true := by
  cases a <;> simp [jleNum]

theorem jleNum_of_jlt {a b : JNum} (h : jlt a b = true) : jleNum a b = true := by
  cases a <;> cases b <;> simp_all [jlt, jleNum] <;> omega

theorem jleNum_trans {a b c : JNum} (h1 : jleNum a b = true)
    (h2 : jleNum b c = true) : jleNum a c = true := by
  cases a <;> cases b <;> cases c <;> simp_all [jleNum] <;> omega

theorem jleJ_zero_of_jnnB {d : JNum} (h : jnnB d = true) :
    jleJ (.jint 0) d = true := by
  cases d <;> simp_all [jnnB, jleJ]

theorem jleNum_of_not_jlt {a b : JNum} (h : jlt a b = false) :
    jleNum b a = true := by
  cases a <;> cases b <;> simp_all [jlt, jleNum] <;> omega

/-! ### Facts about the input scan of `processBlock` -/

theorem noteInput_fst_mono (s : ScanDB) (m : List (Outpoint × JNum))
    (acc : Bool × JNum) (v : Vin) (h : acc.1 = true) :
    (noteInput s m acc v).1 = true := by
  unfold noteInput
  split
  · exact h
  · split
    · rfl
    · split
      · rfl
      · rfl
      · exact h
      · exact h

theorem noteInput_snd_le (s : ScanDB) (m : List (Outpoint × JNum))
    (acc : Bool × JNum) (v : Vin) :
    jleNum (noteInput s m acc v).2 acc.2 = true := by
  unfold noteInput
  split
  · exact jleNum_refl _
  · split
    · rename_i d _
      by_cases hlt : jlt d acc.2 = true
      · simp only [hlt, if_true]
        exact jleNum_of_jlt hlt
      · simp only [Bool.not_eq_true] at hlt
        simp only [hlt, Bool.false_eq_true, if_false]
        exact jleNum_refl _
    · split
      · rename_i k _
        by_cases hlt : jlt (.int k) acc.2 = true
        · simp only [hlt, if_true]
          exact jleNum_of_jlt hlt
        · simp only [Bool.not_eq_true] at hlt
          simp only [hlt, Bool.false_eq_true, if_false]
          exact jleNum_refl _
      · exact jleNum_refl _
      · exact jleNum_refl _
      · exact jleNum_refl _

theorem foldl_noteInput_fst_mono (s : ScanDB) (m : List (Outpoint × JNum))
    (vins : List Vin) (acc : Bool × JNum) (h : acc.1 = true) :
    (vins.foldl (noteInput s m) acc).1 = true := by
  induction vins generalizing acc with
  | nil => exact h
  | cons v t ih => exact ih _ (noteInput_fst_mono s m acc v h)

theorem foldl_noteInput_snd_le (s : ScanDB) (m : List (Outpoint × JNum))
    (vins : List Vin) (acc : Bool × JNum) :
    jleNum (vins.foldl (noteInput s m) acc).2 acc.2 = true := by
  induction vins generalizing acc with
  | nil => exact jleNum_refl _
  | cons v t ih => exact jleNum_trans (ih _) (noteInput_snd_le s m acc v)

theorem noteInput_hit (s : ScanDB) (m : List (Outpoint × JNum))
    (acc : Bool × JNum) (v : Vin) (d : JNum)
    (hcb : v.coinbase = false) (ho : alookup (v.txid, v.vout) m = some d) :
    (noteInput s m acc v).1 = true ∧
      jleNum (noteInput s m acc v).2 d = true := by
  unfold noteInput
  simp only [hcb, Bool.false_eq_true, if_false, ho]
  refine ⟨by simp, ?_⟩
  by_cases hlt : jlt d acc.2 = true
  · simp only [hlt, if_true]
    exact jleNum_refl _
  · simp only [Bool.not_eq_true] at hlt
    simp only [hlt, Bool.false_eq_true, if_false]
    exact jleNum_of_not_jlt hlt

theorem inputScan_hit (s : ScanDB) (m : List (Outpoint × JNum))
    (vins : List Vin) (acc : Bool × JNum) (O : Outpoint) (d : JNum)
    (hmem : alookup O m = some d)
    (hv : ∃ v ∈ vins, v.coinbase = false ∧ (v.txid, v.vout) = O) :
    (vins.foldl (noteInput s m) acc).1 = true ∧
      jleNum (vins.foldl (noteInput s m) acc).2 d = true := by
  induction vins generalizing acc with
  | nil => simp at hv
  | cons v t ih =>
    rcases hv with ⟨w, hw, hwcb, hwo⟩
    rcases List.mem_cons.mp hw with rfl | hwt
    · rw [← hwo] at hmem
      have hhit := noteInput_hit s m acc w d hwcb hmem
      rw [List.foldl_cons]
      exact ⟨foldl_noteInput_fst_mono s m t _ hhit.1,
        jleNum_trans (foldl_noteInput_snd_le s m t _) hhit.2⟩
    · exact ih _ ⟨w, hwt, hwcb, hwo⟩

/-! ### Non-negativity of all degrees computed by the scanner -/

theorem jnnB_jadd1 {d : JNum} (h : jnnB d = true) : jnnB (jadd1 d) = true := by
  cases d <;> simp_all [jnnB, jadd1] <;> omega

theorem foldl_noteInput_jnn (s : ScanDB) (m : List (Outpoint × JNum))
    (hs : scanWFb s = true) (hm : mapWFb m = true)
    (vins : List Vin) (acc : Bool × JNum) (hacc : jnnB acc.2 = true) :
    jnnB (vins.foldl (noteInput s m) acc).2 = true := by
  induction vins generalizing acc with
  | nil => exact hacc
  | cons v t ih =>
    rw [List.foldl_cons]
    refine ih _ ?_
    unfold noteInput
    split
    · exact hacc
    · split
      · rename_i d hd
        have := alookup_all _ _ _ _ hm hd
        split <;> assumption
      · split
        · rename_i k hk
          have hkk := alookup_all _ _ _ _ hs hk
          simp only at hkk
          split
          · simpa [jnnB] using hkk
          · exact hacc
        · exact hacc
        · exact hacc
        · exact hacc

/-- Well-formedness of the block-local state: every degree in the in-block
map, the staged `tainted_out` batch and the queued callbacks is
non-negative. -/
def blockAccWFb (acc : BlockAcc) : Bool :=
  mapWFb acc.blockMap && acc.toBatch.all (fun p => jnnB p.2) &&
    acc.callbacks.all (fun cb => jnnB cb.currentDegree)

theorem stageOutput_wf (s : ScanDB) (txid : TxId) (cur : JNum)
    (ftx : FormattedTx) (src : Option Addr) (hcur : jnnB cur = true)
    (acc : BlockAcc) (iv : Nat × Vout) (hacc : blockAccWFb acc = true) :
    blockAccWFb (stageOutput s txid cur ftx src acc iv) = true := by
  unfold stageOutput
  dsimp only
  split
  · exact hacc
  · simp only [blockAccWFb, Bool.and_eq_true] at hacc
    obtain ⟨⟨hm, hb⟩, hc⟩ := hacc
    have hm' : mapWFb (((txid, iv.1), cur) :: acc.blockMap) = true := by
      simp only [mapWFb, List.all_cons, Bool.and_eq_true]
      exact ⟨hcur, hm⟩
    have hb' : ((acc.toBatch ++ [((txid, iv.1), cur)]).all fun p => jnnB p.2) = true := by
      simp only [List.all_append, List.all_cons, List.all_nil, Bool.and_eq_true,
        Bool.and_true]
      exact ⟨hb, hcur⟩
    split
    · simp only [blockAccWFb, Bool.and_eq_true]
      refine ⟨⟨hm', hb'⟩, ?_⟩
      simp only [List.all_append, List.all_cons, List.all_nil, Bool.and_eq_true,
        Bool.and_true]
      exact ⟨hc, hcur⟩
    · simp only [blockAccWFb, Bool.and_eq_true]
      exact ⟨⟨hm', hb'⟩, hc⟩

theorem foldl_stageOutput_wf (s : ScanDB) (txid : TxId) (cur : JNum)
    (ftx : FormattedTx) (src : Option Addr) (hcur : jnnB cur = true)
    (l : List (Nat × Vout)) (acc : BlockAcc) (hacc : blockAccWFb acc = true) :
    blockAccWFb (l.foldl (stageOutput s txid cur ftx src) acc) = true := by
  induction l generalizing acc with
  | nil => exact hacc
  | cons h t ih => exact ih _ (stageOutput_wf s txid cur ftx src hcur acc h hacc)

theorem processTx_wf (seeds : List Addr) (s : ScanDB) (hs : scanWFb s = true)
    (acc : BlockAcc) (t : Tx) (hacc : blockAccWFb acc = true) :
    blockAccWFb (processTx seeds s acc t) = true := by
  unfold processTx
  dsimp only
  split
  · have hmap : mapWFb acc.blockMap = true := by
      simp only [blockAccWFb, Bool.and_eq_true] at hacc
      exact hacc.1.1
    refine foldl_stageOutput_wf _ _ _ _ _ ?_ _ _ hacc
    split
    · simp [jadd1, jnnB]
    · exact jnnB_jadd1 (foldl_noteInput_jnn s acc.blockMap hs hmap t.vin _ rfl)
  · exact hacc

theorem blockAcc_wf (seeds : List Addr) (s : ScanDB) (b : Block)
    (hs : scanWFb s = true) : blockAccWFb (blockAcc seeds s b) = true := by
  unfold blockAcc
  generalize hinit : (⟨[], [], []⟩ : BlockAcc) = init
  have hinitwf : blockAccWFb init = true := by
    rw [← hinit]; rfl
  clear hinit
  induction b.tx generalizing init with
  | nil => exact hinitwf
  | cons h t ih => exact ih _ (processTx_wf seeds s hs init h hinitwf)

theorem all_foldl_prepend_toTOVal (p : Outpoint × TOVal → Bool)
    (batch : List (Outpoint × JNum)) (init : List (Outpoint × TOVal))
    (hinit : init.all p = true)
    (hb : ∀ x ∈ batch, p (x.1, toTOVal x.2) = true) :
    (batch.foldl (fun l q => (q.1, toTOVal q.2) :: l) init).all p = true := by
  induction batch generalizing init with
  | nil => exact hinit
  | cons h t ih =>
    rw [List.foldl_cons]
    refine ih _ ?_ fun x hx => hb x (List.mem_cons_of_mem h hx)
    simp only [List.all_cons, Bool.and_eq_true]
    exact ⟨hb h (List.mem_cons_self h t), hinit⟩

theorem writeTOBatch_wf (s : ScanDB) (batch : List (Outpoint × JNum))
    (hs : scanWFb s = true) (hb : batch.all (fun p => jnnB p.2) = true) :
    scanWFb (writeTOBatch s batch) = true := by
  unfold writeTOBatch scanWFb
  refine all_foldl_prepend_toTOVal _ batch s.taintedOut hs fun x hx => ?_
  have := (List.all_eq_true.mp hb) x hx
  rcases x with ⟨o, d⟩
  cases d <;> simp_all [toTOVal, jnnB]

/-! ### Persistence of the in-block map (outpoints are never re-staged) -/

theorem stageOutput_map_mono (s : ScanDB) (txid : TxId) (cur : JNum)
    (ftx : FormattedTx) (src : Option Addr) (acc : BlockAcc)
    (iv : Nat × Vout) (O : Outpoint) (d : JNum)
    (h : alookup O acc.blockMap = some d) :
    alookup O (stageOutput s txid cur ftx src acc iv).blockMap = some d := by
  unfold stageOutput
  dsimp only
  split
  · exact h
  · rename_i hnt
    have hne : ((txid, iv.1) : Outpoint) ≠ O := by
      intro he
      rw [alreadyTainted, he, h] at hnt
      simp at hnt
    split <;> simp_all [alookup_cons, hne]

theorem foldl_stageOutput_map_mono (s : ScanDB) (txid : TxId) (cur : JNum)
    (ftx : FormattedTx) (src : Option Addr) (l : List (Nat × Vout))
    (acc : BlockAcc) (O : Outpoint) (d : JNum)
    (h : alookup O acc.blockMap = some d) :
    alookup O ((l.foldl (stageOutput s txid cur ftx src) acc)).blockMap = some d := by
  induction l generalizing acc with
  | nil => exact h
  | cons x t ih => exact ih _ (stageOutput_map_mono s txid cur ftx src acc x O d h)

theorem processTx_map_mono (seeds : List Addr) (s : ScanDB) (acc : BlockAcc)
    (t : Tx) (O : Outpoint) (d : JNum) (h : alookup O acc.blockMap = some d) :
    alookup O (processTx seeds s acc t).blockMap = some d := by
  unfold processTx
  dsimp only
  split
  · exact foldl_stageOutput_map_mono _ _ _ _ _ _ _ _ _ h
  · exact h

theorem foldl_processTx_map_mono (seeds : List Addr) (s : ScanDB)
    (txs : List Tx) (acc : BlockAcc) (O : Outpoint) (d : JNum)
    (h : alookup O acc.blockMap = some d) :
    alookup O ((txs.foldl (processTx seeds s) acc)).blockMap = some d := by
  induction txs generalizing acc with
  | nil => exact h
  | cons x t ih => exact ih _ (processTx_map_mono seeds s acc x O d h)

/-! ### The staged main batch never touches a protected address -/

theorem safeBatchPut_avoids (A : Addr) (b : BatchState) (op : MainOp)
    (hb : b.ops.all (opAvoids A) = true) (hop : opAvoids A op = true) :
    (safeBatchPut b op).ops.all (opAvoids A) = true := by
  unfold safeBatchPut
  split
  · simp only [List.all_append, List.all_cons, List.all_nil, Bool.and_eq_true,
      Bool.and_true]
    exact ⟨hb, hop⟩
  · exact hb

theorem processAddressCore_avoids (db : MainDB) (ctx : AddrCtx) (a : Addr)
    (d : JNum) (ftx : FormattedTx) (src : Option Addr) (A : Addr)
    (hneq : a ≠ A) (hb : ctx.batch.ops.all (opAvoids A) = true) :
    (processAddressCore db ctx a d ftx src).batch.ops.all (opAvoids A) = true := by
  unfold processAddressCore
  dsimp only
  refine safeBatchPut_avoids A _ _ ?_ ?_
  · split
    · exact hb
    · exact safeBatchPut_avoids A _ _ hb rfl
  · simp [opAvoids, hneq]

theorem processAddressInBatch_avoids (db : MainDB) (ctx : AddrCtx) (a : Addr)
    (d : JNum) (ftx : FormattedTx) (src : Option Addr) (A : Addr)
    (r : TaintRecord) (hA : alookup A db.tainted = some r)
    (hr : r.degree = .jint 0) (hd : jnnB d = true)
    (hb : ctx.batch.ops.all (opAvoids A) = true) :
    (processAddressInBatch db ctx a d ftx src).batch.ops.all (opAvoids A) = true := by
  by_cases heq : a = A
  · subst heq
    unfold processAddressInBatch
    rw [hA]
    simpa [hr, jleJ_zero_of_jnnB hd] using hb
  · unfold processAddressInBatch
    split
    · split
      · exact hb
      · exact processAddressCore_avoids db ctx a d ftx src A heq hb
    · exact processAddressCore_avoids db ctx a d ftx src A heq hb

theorem callbacks_fold_avoids (db : MainDB) (cbs : List Callback)
    (ctx : AddrCtx) (A : Addr) (r : TaintRecord)
    (hA : alookup A db.tainted = some r) (hr : r.degree = .jint 0)
    (hcbs : cbs.all (fun cb => jnnB cb.currentDegree) = true)
    (hb : ctx.batch.ops.all (opAvoids A) = true) :
    ((cbs.foldl
        (fun c cb => processAddressInBatch db c cb.address cb.currentDegree cb.tx cb.sourceAddress)
        ctx)).batch.ops.all (opAvoids A) = true := by
  induction cbs generalizing ctx with
  | nil => exact hb
  | cons cb t ih =>
    simp only [List.all_cons, Bool.and_eq_true] at hcbs
    exact ih _ hcbs.2
      (processAddressInBatch_avoids db ctx cb.address cb.currentDegree cb.tx
        cb.sourceAddress A r hA hr hcbs.1 hb)

theorem applyMainOps_tainted_preserved (db : MainDB) (ops : List MainOp)
    (A : Addr) (h : ops.all (opAvoids A) = true) :
    alookup A (applyMainOps db ops).tainted = alookup A db.tainted := by
  induction ops generalizing db with
  | nil => rfl
  | cons op t ih =>
    simp only [List.all_cons, Bool.and_eq_true] at h
    rw [applyMainOps, List.foldl_cons, ← applyMainOps, ih _ h.2]
    cases op with
    | putTainted a r =>
      have : a ≠ A := by
        simpa [opAvoids] using h.1
      simp [applyMainOp, alookup_cons, this]
    | putTx h' r => rfl

theorem applyMainOps_txs_preserved (db : MainDB) (ops : List MainOp)
    (h : TxId) (hclean : ops.all (fun op => !isPutTxKey h op) = true) :
    alookup h (applyMainOps db ops).txs = alookup h db.txs := by
  induction ops generalizing db with
  | nil => rfl
  | cons op t ih =>
    simp only [List.all_cons, Bool.and_eq_true] at hclean
    rw [applyMainOps, List.foldl_cons, ← applyMainOps, ih _ hclean.2]
    cases op with
    | putTainted a r => rfl
    | putTx h' r =>
      have : h' ≠ h := by
        simpa [isPutTxKey] using hclean.1
      simp [applyMainOp, alookup_cons, this]

/-! ### Preservation of seed records across the sync loop -/

/-- The invariant carried through `syncNewBlocks` for a protected address
`A` holding record `r`: the committed record is untouched, no staged
operation rewrites it, and all stored integer degrees are non-negative. -/
def SeedInv (A : Addr) (r : TaintRecord) (st : SyncState) : Prop :=
  alookup A st.mainDb.tainted = some r ∧
    st.batch.ops.all (opAvoids A) = true ∧
    scanWFb st.scanDb = true

theorem resetBatch_inv {A r st} (h : SeedInv A r st) :
    SeedInv A r (resetBatch st) :=
  ⟨h.1, rfl, h.2.2⟩

theorem flushBatch_inv {A r st} (h : SeedInv A r st) :
    SeedInv A r (flushBatch st) := by
  unfold flushBatch
  split
  · exact ⟨by
      simpa [applyMainOps_tainted_preserved st.mainDb st.batch.ops A h.2.1] using h.1,
      rfl, h.2.2⟩
  · exact h

theorem syncBlockStep_inv (seeds : List Addr) (cfg : Config)
    (fetch : ℤ → Outcome) (timer : ℤ → Bool) (st : SyncState) (height : ℤ)
    {A : Addr} {r : TaintRecord} (hr : r.degree = .jint 0)
    (h : SeedInv A r st) :
    SeedInv A r (syncBlockStep seeds cfg fetch timer st height) := by
  unfold syncBlockStep
  split
  · split
    · exact resetBatch_inv h
    · exact h
  · rename_i b _
    have hwf := blockAcc_wf seeds st.scanDb b h.2.2
    simp only [blockAccWFb, Bool.and_eq_true] at hwf
    have hctx : SeedInv A r
        { st with
          scanDb := (processBlock seeds b st.mainDb st.scanDb ⟨st.batch, st.cache⟩).1
          batch := (processBlock seeds b st.mainDb st.scanDb ⟨st.batch, st.cache⟩).2.batch
          cache := (processBlock seeds b st.mainDb st.scanDb ⟨st.batch, st.cache⟩).2.cache } := by
      refine ⟨h.1, ?_, ?_⟩
      · exact callbacks_fold_avoids st.mainDb _ _ A r h.1 hr hwf.2 h.2.1
      · show scanWFb (processBlock seeds b st.mainDb st.scanDb ⟨st.batch, st.cache⟩).1 = true
        unfold processBlock
        dsimp only
        split
        · exact h.2.2
        · exact writeTOBatch_wf st.scanDb _ h.2.2 hwf.1.2
    set st1 : SyncState :=
      { st with
        scanDb := (processBlock seeds b st.mainDb st.scanDb ⟨st.batch, st.cache⟩).1
        batch := (processBlock seeds b st.mainDb st.scanDb ⟨st.batch, st.cache⟩).2.batch
        cache := (processBlock seeds b st.mainDb st.scanDb ⟨st.batch, st.cache⟩).2.cache } with hst1
    have hstep : SeedInv A r
        (if cfg.batchSize ≤ st1.batch.ops.length ∨ timer height then
          resetBatch (flushBatch st1) else st1) := by
      split
      · exact resetBatch_inv (flushBatch_inv hctx)
      · exact hctx
    exact ⟨hstep.1, hstep.2.1, hstep.2.2⟩

theorem syncNewBlocks_inv (seeds : List Addr) (cfg : Config)
    (fetch : ℤ → Outcome) (timer : ℤ → Bool) (st : SyncState)
    (heights : List ℤ) {A : Addr} {r : TaintRecord} (hr : r.degree = .jint 0)
    (hA : alookup A st.mainDb.tainted = some r) (hwf : scanWFb st.scanDb = true) :
    alookup A (syncNewBlocks seeds cfg fetch timer st heights).mainDb.tainted = some r := by
  unfold syncNewBlocks
  have h0 : SeedInv A r (resetBatch st) := ⟨hA, rfl, hwf⟩
  have hfold : SeedInv A r
      (heights.foldl (syncBlockStep seeds cfg fetch timer) (resetBatch st)) := by
    generalize hst : resetBatch st = st0 at h0
    clear hst hA hwf
    induction heights generalizing st0 with
    | nil => exact h0
    | cons hh t ih =>
      exact ih _ (syncBlockStep_inv seeds cfg fetch timer st0 hh hr h0)
  exact (flushBatch_inv hfold).1

theorem safeBatchPut_all (p : MainOp → Bool) (b : BatchState) (op : MainOp)
    (hb : b.ops.all p = true) (hop : p op = true) :
    (safeBatchPut b op).ops.all p = true := by
  unfold safeBatchPut
  split
  · simp only [List.all_append, List.all_cons, List.all_nil, Bool.and_eq_true,
      Bool.and_true]
    exact ⟨hb, hop⟩
  · exact hb

/-- Looking up an outpoint after committing a `tainted_out` batch: the last
staged write for that outpoint wins (JSON-serialized), else the old store
value is visible. -/
theorem alookup_writeTOBatch (s : ScanDB) (batch : List (Outpoint × JNum))
    (o : Outpoint) :
    alookup o (writeTOBatch s batch).taintedOut =
      match alookup o batch.reverse with
      | some d => some (toTOVal d)
      | none => alookup o s.taintedOut := by
  unfold writeTOBatch
  dsimp only
  have hfold : batch.foldl (fun l q => (q.1, toTOVal q.2) :: l) s.taintedOut =
      (batch.map fun p => (p.1, toTOVal p.2)).reverse ++ s.taintedOut :=
    foldl_prepend _ batch s.taintedOut
  rw [hfold, alookup_append]
  have hrev : (batch.map fun p => (p.1, toTOVal p.2)).reverse =
      batch.reverse.map fun p => (p.1, toTOVal p.2) :=
    (List.map_reverse _ _).symm
  rw [hrev, alookup_map_val]
  cases alookup o batch.reverse <;> rfl

theorem initSatoshiAddresses_fresh (seeds : List Addr) (db : MainDB)
    (A : Addr) (hA : A ∈ seeds)
    (hfresh : ∀ a, alookup a db.tainted = none) :
    alookup A (initSatoshiAddresses seeds db).tainted = some (seedInitRecord A) := by
  cases seeds with
  | nil => simp at hA
  | cons a0 t =>
    unfold initSatoshiAddresses
    simp only [List.head?_cons, hfresh a0, Option.isSome_none, Bool.false_eq_true,
      if_false]
    exact alookup_foldl_keyed seedInitRecord (a0 :: t) db.tainted A hA

/-! ### Claim theorems -/

/-- C4: the node client operation `address_from_script`, applied to any
output script, returns the decoded address for the standard mainnet output
types (P2PKH, P2SH, P2WPKH, P2WSH, P2TR) and returns none, rather than
failing, for non-standard scripts.  (Modelled from the spec: the function
is total in the embedding, so "rather than failing" is captured by the
equations being exhaustive over all scripts.) -/
theorem address_from_script_standard_types :
    (∀ a : Addr, getAddressFromScript (.p2pkh a) = some a) ∧
    (∀ a : Addr, getAddressFromScript (.p2sh a) = some a) ∧
    (∀ a : Addr, getAddressFromScript (.p2wpkh a) = some a) ∧
    (∀ a : Addr, getAddressFromScript (.p2wsh a) = some a) ∧
    (∀ a : Addr, getAddressFromScript (.p2tr a) = some a) ∧
    getAddressFromScript .nonstandard = none :=
  ⟨fun _ => rfl, fun _ => rfl, fun _ => rfl, fun _ => rfl, fun _ => rfl, rfl⟩

/-- C6: once the `satoshi_coinbase_initialized` flag is present in the scan
store, every subsequent initialization run reads the flag and returns the
store unchanged (no seed-outpoint writes), so running the initialization
twice leaves the same store state as running it once. -/
theorem coinbase_init_idempotent_one_shot (cbFetch : Nat → Option Tx)
    (heights : List Nat) :
    (∀ s : ScanDB, s.coinbaseFlag.isSome = true →
      ensureCoinbaseInit cbFetch heights s = s) ∧
    (∀ s : ScanDB,
      ensureCoinbaseInit cbFetch heights (ensureCoinbaseInit cbFetch heights s) =
        ensureCoinbaseInit cbFetch heights s) := by
  constructor
  · intro s hs
    unfold ensureCoinbaseInit
    rw [if_pos hs]
  · intro s
    by_cases hs : s.coinbaseFlag.isSome = true
    · unfold ensureCoinbaseInit
      rw [if_pos hs, if_pos hs]
    · have hflag : (initCoinbaseOutputs cbFetch heights s).coinbaseFlag.isSome = true := rfl
      unfold ensureCoinbaseInit
      rw [if_neg hs, if_pos hflag]

/-- Witness for C6: on a store that already carries the flag, a further
initialization run is the identity. -/
theorem coinbase_init_idempotent_one_shot_witness :
    ensureCoinbaseInit (fun _ => none) [0, 1, 2]
        ⟨[], some 7, some ⟨3⟩⟩ = ⟨[], some 7, some ⟨3⟩⟩ :=
  (coinbase_init_idempotent_one_shot (fun _ => none) [0, 1, 2]).1
    ⟨[], some 7, some ⟨3⟩⟩ rfl

/-- C8: for every queried address that has no `tainted:` record in the
store and is not in the seed list, the query returns the Unconnected
result (`isConnected = false`, `degree = 0`, empty `connectionPath`)
instead of propagating the store's not-found error. -/
theorem query_missing_record_unconnected (db : MainDB) (address : Addr)
    (hns : SATOSHI_ADDRESSES_QUERY.contains address = false)
    (hnf : alookup address db.tainted = none) :
    checkAddressConnection db address =
      { isConnected := false
        isSatoshiAddress := false
        degree := .jint 0
        note := none
        connectionPath := []
        transactions := [] } := by
  unfold checkAddressConnection
  rw [hns]
  simp only [Bool.false_eq_true, if_false, hnf]

/-- Witness for C8: a fresh address on an empty store queries as
unconnected. -/
theorem query_missing_record_unconnected_witness :
    checkAddressConnection ⟨[], []⟩ "bc1qfreshlygenerated" =
      { isConnected := false
        isSatoshiAddress := false
        degree := .jint 0
        note := none
        connectionPath := []
        transactions := [] } :=
  query_missing_record_unconnected ⟨[], []⟩ "bc1qfreshlygenerated"
    (by decide) rfl

/-- C7: within a single block, an outpoint tainted by an earlier
transaction is visible as tainted, with its degree, to every later
transaction of the same block that spends it, through the in-block
tainted-outpoint map: the map entry survives the processing of any further
transactions, and the input scan of a transaction spending the outpoint
reports tainting with a minimum degree at most that entry's degree — for
an arbitrary scan store, i.e. even before any batch for the block has been
committed. -/
theorem inblock_taint_visible_to_later_txs (seeds : List Addr)
    (scanDb : ScanDB) (txs : List Tx) (acc : BlockAcc) (O : Outpoint)
    (d : JNum) (hmem : alookup O acc.blockMap = some d) :
    alookup O ((txs.foldl (processTx seeds scanDb) acc)).blockMap = some d ∧
    (∀ vins : List Vin,
      (∃ v ∈ vins, v.coinbase = false ∧ ((v.txid, v.vout) : Outpoint) = O) →
      (inputScan scanDb acc.blockMap vins).1 = true ∧
        jleNum (inputScan scanDb acc.blockMap vins).2 d = true) := by
  refine ⟨foldl_processTx_map_mono seeds scanDb txs acc O d hmem, fun vins hv => ?_⟩
  exact inputScan_hit scanDb acc.blockMap vins (false, .inf) O d hmem hv

/-- Witness for C7: an outpoint staged in-block at degree 3 is seen by a
later spending input even though the scan store has no entry for it. -/
theorem inblock_taint_visible_to_later_txs_witness :
    alookup (("tA", 0) : Outpoint)
        (([⟨"tB", 8, [⟨false, "tA", 0, none⟩], [⟨.p2pkh "Y", 5⟩]⟩] : List Tx).foldl
          (processTx [] ⟨[], none, none⟩)
          ⟨[(("tA", 0), .int 3)], [(("tA", 0), .int 3)], []⟩).blockMap =
      some (.int 3) ∧
    (inputScan ⟨[], none, none⟩ [(("tA", 0), .int 3)]
        [⟨false, "tA", 0, none⟩]).1 = true ∧
    jleNum (inputScan ⟨[], none, none⟩ [(("tA", 0), .int 3)]
        [⟨false, "tA", 0, none⟩]).2 (.int 3) = true := by
  have h := inblock_taint_visible_to_later_txs [] ⟨[], none, none⟩
    [⟨"tB", 8, [⟨false, "tA", 0, none⟩], [⟨.p2pkh "Y", 5⟩]⟩]
    ⟨[(("tA", 0), .int 3)], [(("tA", 0), .int 3)], []⟩ ("tA", 0) (.int 3) rfl
  exact ⟨h.1, h.2 [⟨false, "tA", 0, none⟩] ⟨⟨false, "tA", 0, none⟩, by simp, rfl, rfl⟩⟩

/-- C9: if the chosen source address is null, or has no `tainted:` record
in the main store or parent cache, the scanner still stages a `tainted:`
write for the output address with the computed degree, but with an empty
path and `originalSatoshiAddress` equal to the address itself.  The staged
operations are exactly the optional `tx:` cache put followed by that
self-rooted `tainted:` put. -/
theorem missing_parent_writes_selfrooted_record (db : MainDB)
    (ctx : AddrCtx) (A : Addr) (d : JNum) (ftx : FormattedTx)
    (src : Option Addr)
    (hnew : alookup A db.tainted = none)
    (hvalid : ctx.batch.batchIsValid = true)
    (hsrc : src = none ∨
      ∃ s, src = some s ∧ alookup s ctx.cache = none ∧
        alookup s db.tainted = none) :
    (processAddressInBatch db ctx A d ftx src).batch.ops =
      ctx.batch.ops ++
        (if (alookup ftx.hash db.txs).isSome then []
         else [.putTx ftx.hash ⟨ftx.hash, ftx.time, ftx.inputs, ftx.out, toJVal d⟩]) ++
        [.putTainted A
          { txHash := some ftx.hash
            originalSatoshiAddress := A
            amount := outAmountFor ftx A
            degree := toJVal d
            path := [] }] := by
  unfold processAddressInBatch
  rw [hnew]
  unfold processAddressCore
  rcases hsrc with rfl | ⟨s, rfl, hc, hdb⟩
  · dsimp only
    by_cases hex : (alookup ftx.hash db.txs).isSome = true
    · simp [safeBatchPut, hvalid, hex]
    · simp [safeBatchPut, hvalid, hex]
  · dsimp only
    rw [hc, hdb]
    dsimp only
    by_cases hex : (alookup ftx.hash db.txs).isSome = true
    · simp [safeBatchPut, hvalid, hex]
    · simp [safeBatchPut, hvalid, hex]

/-- Witness for C9: with a null source address, a fresh address is staged
at degree 2 with an empty path and itself as `originalSatoshiAddress` —
a record with positive degree, no witness path, and a seed-address field
that is not a seed. -/
theorem missing_parent_writes_selfrooted_record_witness :
    (processAddressInBatch ⟨[], []⟩ ⟨⟨[], true⟩, []⟩ "addrZ" (.int 2)
        ⟨"txZ", 4, [], [⟨"addrZ", 77⟩]⟩ none).batch.ops =
      [.putTx "txZ" ⟨"txZ", 4, [], [⟨"addrZ", 77⟩], .jint 2⟩,
       .putTainted "addrZ"
        { txHash := some "txZ"
          originalSatoshiAddress := "addrZ"
          amount := 77
          degree := .jint 2
          path := [] }] := by
  have h := missing_parent_writes_selfrooted_record ⟨[], []⟩ ⟨⟨[], true⟩, []⟩
    "addrZ" (.int 2) ⟨"txZ", 4, [], [⟨"addrZ", 77⟩]⟩ none rfl rfl (Or.inl rfl)
  simpa [outAmountFor, List.find?] using h

/-- C10: once a `tx:<txid>` record exists in the main store, the scanner
stages no further write to that key — `processAddressInBatch` keeps the
batch clean of `tx:` puts for that hash, and applying the resulting batch
leaves the cached record unchanged (first write wins). -/
theorem tx_cache_first_write_wins (db : MainDB) (ctx : AddrCtx) (A : Addr)
    (d : JNum) (ftx : FormattedTx) (src : Option Addr) (r : TxRecord)
    (hex : alookup ftx.hash db.txs = some r)
    (hclean : ctx.batch.ops.all (fun op => !isPutTxKey ftx.hash op) = true) :
    ((processAddressInBatch db ctx A d ftx src).batch.ops.all
        (fun op => !isPutTxKey ftx.hash op) = true) ∧
    alookup ftx.hash
        (applyMainOps db (processAddressInBatch db ctx A d ftx src).batch.ops).txs =
      some r := by
  have hiss : (alookup ftx.hash db.txs).isSome = true := by rw [hex]; rfl
  have hcore : (processAddressCore db ctx A d ftx src).batch.ops.all
      (fun op => !isPutTxKey ftx.hash op) = true := by
    unfold processAddressCore
    dsimp only
    rw [if_pos hiss]
    exact safeBatchPut_all _ _ _ hclean rfl
  have hops : (processAddressInBatch db ctx A d ftx src).batch.ops.all
      (fun op => !isPutTxKey ftx.hash op) = true := by
    unfold processAddressInBatch
    split
    · split
      · exact hclean
      · exact hcore
    · exact hcore
  exact ⟨hops, by rw [applyMainOps_txs_preserved db _ ftx.hash hops, hex]⟩

/-- Witness for C10: with `tx:txW` already cached, processing another
output of the same transaction stages no `tx:` write and the cached record
survives the batch commit. -/
theorem tx_cache_first_write_wins_witness :
    ((processAddressInBatch ⟨[], [("txW", ⟨"txW", 1, [], [], .jint 1⟩)]⟩
        ⟨⟨[], true⟩, []⟩ "addrW" (.int 1) ⟨"txW", 1, [], []⟩ none).batch.ops.all
        (fun op => !isPutTxKey "txW" op) = true) ∧
    alookup "txW"
        (applyMainOps ⟨[], [("txW", ⟨"txW", 1, [], [], .jint 1⟩)]⟩
          (processAddressInBatch ⟨[], [("txW", ⟨"txW", 1, [], [], .jint 1⟩)]⟩
            ⟨⟨[], true⟩, []⟩ "addrW" (.int 1) ⟨"txW", 1, [], []⟩ none).batch.ops).txs =
      some ⟨"txW", 1, [], [], .jint 1⟩ :=
  tx_cache_first_write_wins ⟨[], [("txW", ⟨"txW", 1, [], [], .jint 1⟩)]⟩
    ⟨⟨[], true⟩, []⟩ "addrW" (.int 1) ⟨"txW", 1, [], []⟩ none
    ⟨"txW", 1, [], [], .jint 1⟩ rfl rfl

/-- C1 (amended): when a block is fetched and processed successfully, the
published state carries `scan_progress = height` and every `tainted_out`
write staged for that block is already committed in the scan store; but
when neither the batch-size threshold nor the flush timer fires, the main
store (`tainted:` / `tx:`) is left untouched and those writes remain
staged in the in-memory batch past the progress publish. -/
theorem progress_publish_after_scan_batch_commit (seeds : List Addr)
    (cfg : Config) (fetch : ℤ → Outcome) (timer : ℤ → Bool) (st : SyncState)
    (h : ℤ) (b : Block) (hok : fetch h = .ok b)
    (hsize : (processBlock seeds b st.mainDb st.scanDb ⟨st.batch, st.cache⟩).2.batch.ops.length <
      cfg.batchSize)
    (htimer : timer h = false) :
    (syncBlockStep seeds cfg fetch timer st h).scanDb.scanProgress = some h ∧
    (∀ (o : Outpoint) (d : JNum),
      alookup o (blockAcc seeds st.scanDb b).toBatch.reverse = some d →
      alookup o (syncBlockStep seeds cfg fetch timer st h).scanDb.taintedOut =
        some (toTOVal d)) ∧
    (syncBlockStep seeds cfg fetch timer st h).mainDb = st.mainDb ∧
    (syncBlockStep seeds cfg fetch timer st h).batch =
      (processBlock seeds b st.mainDb st.scanDb ⟨st.batch, st.cache⟩).2.batch := by
  unfold syncBlockStep
  rw [hok]
  dsimp only
  have hcond : ¬(cfg.batchSize ≤
      (processBlock seeds b st.mainDb st.scanDb ⟨st.batch, st.cache⟩).2.batch.ops.length ∨
      timer h = true) := by
    rintro (hc | hc)
    · omega
    · rw [htimer] at hc
      exact Bool.false_ne_true hc
  rw [if_neg hcond]
  refine ⟨rfl, ?_, rfl, rfl⟩
  intro o d hod
  show alookup o
      (processBlock seeds b st.mainDb st.scanDb ⟨st.batch, st.cache⟩).1.taintedOut =
    some (toTOVal d)
  unfold processBlock
  dsimp only
  split
  · rename_i hempty
    rw [List.isEmpty_iff.mp hempty] at hod
    simp [alookup] at hod
  · rw [alookup_writeTOBatch, hod]

def c1scan : ScanDB := ⟨[(("ta", 0), .iv 0)], some 99, some ⟨1⟩⟩

def c1block : Block :=
  ⟨[⟨"t2", 5, [⟨false, "ta", 0, some ⟨.p2pkh "S", 100⟩⟩], [⟨.p2pkh "B", 100⟩]⟩]⟩

def c1db : MainDB := ⟨[("S", seedInitRecord "S")], []⟩

def c1st : SyncState := ⟨c1scan, c1db, ⟨[], true⟩, []⟩

def c1run : SyncState :=
  syncBlockStep ["S"] ⟨1000⟩ (fun _ => .ok c1block) (fun _ => false) c1st 100

/-- C1 counterexample: after processing block 100 (one transaction paying
address B out of a tainted outpoint), `scan_progress` is published as 100
while the staged `tainted:B` write is still sitting uncommitted in the
in-memory main batch and the main store does not contain it. -/
theorem progress_published_with_uncommitted_main_writes :
    c1run.scanDb.scanProgress = some 100 ∧
    alookup "B" c1run.mainDb.tainted = none ∧
    (c1run.batch.ops.any fun op =>
      match op with
      | .putTainted a _ => a = "B"
      | .putTx _ _ => false) = true :=
  ⟨rfl, rfl, rfl⟩

/-- Witness for the amended C1 theorem at the concrete block-100 state. -/
theorem progress_publish_after_scan_batch_commit_witness :
    c1run.scanDb.scanProgress = some 100 ∧
    alookup (("t2", 0) : Outpoint) c1run.scanDb.taintedOut = some (.iv 1) ∧
    c1run.mainDb = c1st.mainDb := by
  have h := progress_publish_after_scan_batch_commit ["S"] ⟨1000⟩
    (fun _ => .ok c1block) (fun _ => false) c1st 100 c1block rfl (by decide) rfl
  exact ⟨h.1, h.2.1 ("t2", 0) (.int 1) rfl, h.2.2.1⟩

/-- C2 (amended): when fetching or processing a block fails, that
iteration leaves both stores untouched (in particular `scan_progress` is
not written for that height); but the loop continues with the next height
instead of retrying, and any later successful block publishes its own
height — so `scan_progress` does move past a failed height and the failed
block is not retried by the next iteration. -/
theorem failed_block_skipped_not_retried (seeds : List Addr) (cfg : Config)
    (fetch : ℤ → Outcome) (timer : ℤ → Bool) (st : SyncState) :
    (∀ h : ℤ, fetch h = .fail →
      (syncBlockStep seeds cfg fetch timer st h).scanDb = st.scanDb ∧
      (syncBlockStep seeds cfg fetch timer st h).mainDb = st.mainDb) ∧
    (∀ (h2 : ℤ) (b : Block), fetch h2 = .ok b →
      (syncBlockStep seeds cfg fetch timer st h2).scanDb.scanProgress = some h2) := by
  constructor
  · intro h hf
    unfold syncBlockStep
    rw [hf]
    dsimp only
    constructor
    · split
      · rfl
      · rfl
    · split
      · rfl
      · rfl
  · intro h2 b hok
    unfold syncBlockStep
    rw [hok]

def c2fetch : ℤ → Outcome := fun h => if h = 100 then .fail else .ok ⟨[]⟩

def c2st : SyncState := ⟨⟨[], some 99, some ⟨1⟩⟩, ⟨[], []⟩, ⟨[], true⟩, []⟩

def c2run : SyncState :=
  syncNewBlocks [] ⟨1000⟩ c2fetch (fun _ => false) c2st [100, 101]

/-- C2 counterexample: block 100 fails, yet the same `syncNewBlocks` call
continues with block 101 and publishes `scan_progress = 101`, past the
failed height — so the next iteration resumes at 102 and block 100 is
never retried. -/
theorem progress_advances_past_failed_block :
    c2fetch 100 = .fail ∧ c2run.scanDb.scanProgress = some 101 :=
  ⟨rfl, rfl⟩

/-- Witness for the amended C2 theorem at the concrete two-height run. -/
theorem failed_block_skipped_not_retried_witness :
    (syncBlockStep [] ⟨1000⟩ c2fetch (fun _ => false) c2st 100).scanDb = c2st.scanDb ∧
    (syncBlockStep [] ⟨1000⟩ c2fetch (fun _ => false) c2st 101).scanDb.scanProgress =
      some 101 :=
  ⟨((failed_block_skipped_not_retried [] ⟨1000⟩ c2fetch (fun _ => false) c2st).1
      100 rfl).1,
   (failed_block_skipped_not_retried [] ⟨1000⟩ c2fetch (fun _ => false) c2st).2
      101 ⟨[]⟩ rfl⟩

def c3seeds : List Addr := ["seedAddr"]

def c3scan : ScanDB := ⟨[(("seedcb", 0), .obj (some "seedAddr") 9)], none, some ⟨1⟩⟩

def c3block : Block :=
  ⟨[⟨"t1", 5, [⟨false, "seedcb", 0, some ⟨.p2pkh "seedAddr", 5000000000⟩⟩],
     [⟨.p2pkh "addrA", 5000000000⟩]⟩]⟩

def c3db : MainDB := ⟨[("seedAddr", seedInitRecord "seedAddr")], []⟩

def c3run : ScanDB × AddrCtx :=
  processBlock c3seeds c3block c3db c3scan ⟨⟨[], true⟩, []⟩

def c3final : MainDB := applyMainOps c3db c3run.2.batch.ops

/-- C3: evaluating the scanner on a block whose single transaction spends
a Seed-Builder-written degree-0 seed coinbase outpoint and pays one fresh
address addrA.  The seed builder stores a record object under
`tainted_out:` while `processBlock` compares the raw stored value
numerically, so the object never lowers `minDegree` from `Infinity`:
the new outpoint's degree serializes to JSON null, no source address
matches, and `tainted:addrA` is written with a null degree and an empty
path — not the degree 1 and one-hop path the claim expects. -/
theorem seed_outpoint_spend_yields_null_degree :
    alookup (("seedcb", 0) : Outpoint) c3scan.taintedOut =
      some (.obj (some "seedAddr") 9) ∧
    alookup (("t1", 0) : Outpoint) c3run.1.taintedOut = some .nullv ∧
    alookup "addrA" c3final.tainted =
      some { txHash := some "t1"
             originalSatoshiAddress := "addrA"
             amount := 5000000000
             degree := .jnull
             path := [] } :=
  ⟨rfl, rfl, rfl⟩

/-- C5: for every seed address A, the Seed-Builder record `tainted:A`
holds degree 0 and an empty path, and no scanner operation — over any
configuration, any fetch oracle, any flush schedule and any sequence of
processed heights — replaces a stored degree-0 TaintRecord with a
non-seed taint (the record survives the whole run unchanged). -/
theorem seed_records_degree_zero_immutable (seeds : List Addr) (db : MainDB)
    (A : Addr) (hA : A ∈ seeds)
    (hfresh : ∀ a, alookup a db.tainted = none) :
    ((seedInitRecord A).degree = .jint 0 ∧ (seedInitRecord A).path = [] ∧
      alookup A (initSatoshiAddresses seeds db).tainted = some (seedInitRecord A)) ∧
    (∀ (scanSeeds : List Addr) (cfg : Config) (fetch : ℤ → Outcome)
        (timer : ℤ → Bool) (st : SyncState) (heights : List ℤ) (r : TaintRecord),
        alookup A st.mainDb.tainted = some r → r.degree = .jint 0 →
        scanWFb st.scanDb = true →
        alookup A (syncNewBlocks scanSeeds cfg fetch timer st heights).mainDb.tainted =
          some r) := by
  refine ⟨⟨rfl, rfl, initSatoshiAddresses_fresh seeds db A hA hfresh⟩, ?_⟩
  intro scanSeeds cfg fetch timer st heights r hA2 hr hwf
  exact syncNewBlocks_inv scanSeeds cfg fetch timer st heights hr hA2 hwf

def c5block : Block :=
  ⟨[⟨"t5", 5, [⟨false, "tb", 0, some ⟨.p2pkh "S5", 50⟩⟩],
     [⟨.p2pkh "S5", 30⟩, ⟨.p2pkh "C5", 20⟩]⟩]⟩

def c5st : SyncState :=
  ⟨⟨[(("tb", 0), .iv 0)], some 4, some ⟨1⟩⟩,
   ⟨[("S5", seedInitRecord "S5")], []⟩, ⟨[], true⟩, []⟩

/-- Witness for C5: the seed record of S5 is materialized at degree 0 on a
fresh store, and survives a sync run whose block pays S5 (and another
address) out of a tainted outpoint, with the flush timer forcing a real
batch commit. -/
theorem seed_records_degree_zero_immutable_witness :
    alookup "S5" (initSatoshiAddresses ["S5"] ⟨[], []⟩).tainted =
      some (seedInitRecord "S5") ∧
    alookup "S5"
        (syncNewBlocks ["S5"] ⟨1000⟩ (fun _ => .ok c5block) (fun _ => true)
          c5st [5]).mainDb.tainted =
      some (seedInitRecord "S5") := by
  have h := seed_records_degree_zero_immutable ["S5"] ⟨[], []⟩ "S5"
    (by simp) (fun a => rfl)
  exact ⟨h.1.2.2,
    h.2 ["S5"] ⟨1000⟩ (fun _ => .ok c5block) (fun _ => true) c5st [5]
      (seedInitRecord "S5") rfl rfl rfl⟩

end TaintedBySatoshi
